import Mathlib

/-!
Shallow embedding of the djstation transition engine.

Sources embedded here:
* `audio_analyzer.py` — `AudioAnalyzer.are_keys_compatible` (Camelot harmonic
  compatibility).
* `advanced_mixer.py` — `AdvancedMixer.match_tempo`, `align_beats`,
  `find_optimal_transition_point`, `create_crossfade`, `normalize_audio`,
  `mix_playlist`.
* `music_extender.py` — `MusicExtender.extend_track` (the self-loop
  accumulation algorithm).

Modelling conventions:
* A stereo buffer (NumPy array of shape `(2, n)`) is a `List (α × α)` of
  sample frames; the two channels are always processed by identical
  per-channel code in the source, which becomes componentwise frame
  operations here.
* Sample values are a linear ordered field (`ℚ` in concrete witnesses; `ℝ`
  where the source computes square roots / logarithms, i.e. in
  `normalize_audio` and everything downstream of it).
* Python `int(x)` (truncation toward zero) is `pyInt`; Python `%` on `int`
  with a positive modulus agrees with `Int.emod`, and Python `//` with a
  positive divisor agrees with `Int.ediv` on the (nonnegative) values that
  actually reach it.
* Fallible NumPy operations (shape-mismatched assignments, `np.linspace`
  with a negative count) are modelled with `Except String`; NumPy length-1
  broadcasting is not modelled (no call site proved about below reaches it).
* Negative time inputs — which in Python would trigger NumPy's wraparound
  slice indexing — are outside the model; every theorem below carries the
  corresponding nonnegativity hypotheses.
* File/video I/O, decoding, printing and the external analyzer and
  time-stretch primitives are abstracted: buffers and `TrackAnalysis` values
  are inputs, and the stretch primitive is an explicit function parameter.
-/

/-- Fixed pipeline sample rate (`self.sample_rate = 44100`). -/
def SR : ℕ := 44100

/-- Python `int(x)`: truncation toward zero. -/
def pyInt {α : Type} [LinearOrderedField α] [FloorRing α] (x : α) : ℤ :=
  if 0 ≤ x then ⌊x⌋ else -⌊-x⌋

/-- Seconds to sample index: `int(t * self.sample_rate)`. -/
def toSamples {α : Type} [LinearOrderedField α] [FloorRing α] (t : α) : ℤ :=
  pyInt (t * (SR : α))

/-- A stereo audio buffer: a list of (left, right) sample frames. -/
abbrev Buf (α : Type) := List (α × α)

/-- `np.linspace(a, b, n)` (endpoint included); raises on a negative count.
For `n = 1` NumPy returns `[a]`, which the formula below also yields since
`x / 0 = 0` in a field. -/
def linspace {α : Type} [LinearOrderedField α] (a b : α) (n : ℤ) :
    Except String (List α) :=
  if n < 0 then .error "Number of samples must be non-negative"
  else .ok ((List.range n.toNat).map fun i : ℕ => a + (b - a) * (i : α) / ((n : α) - 1))

/-- NumPy basic slice `l[s:e]` for `0 ≤ s ≤ e` (out-of-range bounds clamp). -/
def npSlice {β : Type} (l : List β) (s e : ℤ) : List β :=
  (l.drop s.toNat).take (e - s).toNat

/-- Python slice `l[:e]` including the negative-`e` convention. -/
def pySliceTo {β : Type} (l : List β) (e : ℤ) : List β :=
  l.take (if e < 0 then ((l.length : ℤ) + e).toNat else e.toNat)

/-- Python slice `l[-k:]` (`k : ℕ`); for `k = 0` this is all of `l`. -/
def pyNegTail {β : Type} (l : List β) (k : ℕ) : List β :=
  if k = 0 then l else l.drop (l.length - k)

/-- Python slice `l[:-k]` (`k : ℕ`); for `k = 0` this is empty (`l[:0]`). -/
def pyNegInit {β : Type} (l : List β) (k : ℕ) : List β :=
  if k = 0 then [] else l.take (l.length - k)

/-- Multiply a stereo frame by a scalar gain (the same curve value is applied
to both channels, mirroring the per-channel loops of the source). -/
def scaleFrame {α : Type} [LinearOrderedField α] (fr : α × α) (c : α) : α × α :=
  (fr.1 * c, fr.2 * c)

/-- Add two stereo frames componentwise. -/
def addFrame {α : Type} [LinearOrderedField α] (fr gr : α × α) : α × α :=
  (fr.1 + gr.1, fr.2 + gr.2)

/-- NumPy elementwise `buf * curve`; shape mismatch raises. -/
def mulSameLen {α : Type} [LinearOrderedField α] (src : Buf α) (curve : List α) :
    Except String (Buf α) :=
  if src.length = curve.length then .ok (List.zipWith scaleFrame src curve)
  else .error "operands could not be broadcast together"

/-- NumPy elementwise `xs + ys`; shape mismatch raises. -/
def addSameLen {α : Type} [LinearOrderedField α] (xs ys : Buf α) :
    Except String (Buf α) :=
  if xs.length = ys.length then .ok (List.zipWith addFrame xs ys)
  else .error "operands could not be broadcast together"

/-- NumPy slice assignment `l[s:e] = src` (for `0 ≤ s ≤ e`); raises when the
destination slice length differs from `src`'s length. -/
def setInto {β : Type} (l : List β) (s e : ℤ) (src : List β) :
    Except String (List β) :=
  if min e (l.length : ℤ) - min s (l.length : ℤ) = (src.length : ℤ)
  then .ok (l.take s.toNat ++ src ++ l.drop e.toNat)
  else .error "could not broadcast input array"

/-- NumPy in-place `l[s:e] *= curve`. -/
def mulInto {α : Type} [LinearOrderedField α] (l : Buf α) (s e : ℤ)
    (curve : List α) : Except String (Buf α) := do
  let seg ← mulSameLen (npSlice l s e) curve
  setInto l s e seg

/-- NumPy in-place `l[s:e] += src`. -/
def addInto {α : Type} [LinearOrderedField α] (l : Buf α) (s e : ℤ)
    (src : Buf α) : Except String (Buf α) := do
  let seg ← addSameLen (npSlice l s e) src
  setInto l s e seg

/-! ## audio_analyzer.py : Camelot key compatibility -/

/-- Python `int(s)` on a string, restricted to unsigned digit literals (the
only shapes that occur for Camelot codes); anything else raises
`ValueError`. -/
def pyParseInt (s : String) : Except String ℤ :=
  if s.length ≠ 0 ∧ s.data.all Char.isDigit
  then .ok ((s.data.foldl (fun acc c => 10 * acc + (c.toNat - 48)) 0 : ℕ) : ℤ)
  else .error "invalid literal for int"

/-- `AudioAnalyzer.are_keys_compatible` (audio_analyzer.py, lines 260-291). -/
def are_keys_compatible (camelot1 camelot2 : String) :
    Except String (Bool × String) :=
  if camelot1 = "Unknown" ∨ camelot2 = "Unknown" then .ok (false, "Unknown key")
  else if camelot1 = camelot2 then .ok (true, "Perfect match (same key)")
  else do
    let num1 ← pyParseInt (camelot1.dropRight 1)
    let num2 ← pyParseInt (camelot2.dropRight 1)
    let letter1 := camelot1.back
    let letter2 := camelot2.back
    if num1 = num2 ∧ letter1 ≠ letter2 then .ok (true, "Relative major/minor")
    else if letter1 = letter2 ∧
        ((num1 + 1) % 12 = num2 % 12 ∨ (num1 - 1) % 12 = num2 % 12)
    then .ok (true, "Adjacent key")
    else .ok (false, "Incompatible keys")

/-- The boolean component of `are_keys_compatible`, `none` when it raises. -/
def compatBool (c1 c2 : String) : Option Bool :=
  (are_keys_compatible c1 c2).toOption.map Prod.fst

/-- The 24 valid Camelot codes (numbers 1-12 with letter A or B). -/
def camelotCodes : List String :=
  ["1A", "2A", "3A", "4A", "5A", "6A", "7A", "8A", "9A", "10A", "11A", "12A",
   "1B", "2B", "3B", "4B", "5B", "6B", "7B", "8B", "9B", "10B", "11B", "12B"]

/-- The compatibility relation exactly as the spec words it: equal codes, or
same number with different letters, or same letter with numbers differing by
exactly 1 modulo 12; false whenever either code is "Unknown". -/
def specKeysCompatible (c1 c2 : String) : Bool :=
  if c1 = "Unknown" ∨ c2 = "Unknown" then false
  else
    let n1 : ℤ := ((c1.dropRight 1).data.foldl (fun acc c => 10 * acc + (c.toNat - 48)) 0 : ℕ)
    let n2 : ℤ := ((c2.dropRight 1).data.foldl (fun acc c => 10 * acc + (c.toNat - 48)) 0 : ℕ)
    decide (c1 = c2) || (n1 = n2 && c1.back ≠ c2.back) ||
      (c1.back = c2.back && ((n1 - n2) % 12 = 1 || (n2 - n1) % 12 = 1))

/-! ## advanced_mixer.py : data model and component functions -/

/-- A named time range of a track (the source stores `start`/`end` in a dict;
`end` is a Lean keyword, hence `stop`). -/
structure Segment (α : Type) where
  start : α
  stop : α

/-- The slice of the external analyzer's output that the transition engine
reads (`analyze_full` result dict): bpm, beat timestamps, Camelot code, the
intro and outro segments, and the duration in seconds. -/
structure TrackAnalysis (α : Type) where
  bpm : α
  beats : List α
  camelot : String
  intro : Segment α
  outro : Segment α
  duration : α

/-- Accumulator of `np.argmin(np.abs(beats - p))` followed by indexing:
first strict improvement wins, so ties go to the earliest candidate. -/
def snapGo {α : Type} [LinearOrderedField α] (p : α) : List α → α → α
  | [], best => best
  | b :: bs, best => snapGo p bs (if |b - p| < |best - p| then b else best)

/-- Snap `p` to the nearest element of `beats` (first minimizer of the
absolute distance); `p` itself when `beats` is empty.  This is the
`if len(beats) > 0: beats[np.argmin(np.abs(beats - p))]` idiom used in both
`align_beats` and `find_optimal_transition_point`. -/
def snapToNearest {α : Type} [LinearOrderedField α] (beats : List α) (p : α) : α :=
  match beats with
  | [] => p
  | b :: bs => snapGo p bs b

/-- `AdvancedMixer.match_tempo` (advanced_mixer.py, lines 40-68).  The
external `pyrb.time_stretch` primitive is the `stretch` parameter.  The
source writes each stretched channel into `np.zeros_like(audio)`, which
raises unless the stretched channel has the input's length — hence the
length guard. `0.5` is written `1/2`. -/
def match_tempo {α : Type} [LinearOrderedField α] (stretch : List α → α → List α)
    (audio : Buf α) (original_bpm target_bpm : α) : Except String (Buf α) :=
  if |original_bpm - target_bpm| < 1 / 2 then .ok audio
  else
    let rate := target_bpm / original_bpm
    let left := stretch (audio.map Prod.fst) rate
    let right := stretch (audio.map Prod.snd) rate
    if left.length = audio.length ∧ right.length = audio.length
    then .ok (left.zip right)
    else .error "could not broadcast input array"

/-- `AdvancedMixer.align_beats` (advanced_mixer.py, lines 70-103): both
buffers are returned unchanged; the returned point is the candidate snapped
to `beats1`'s nearest beat (`beats2` is only logged). -/
def align_beats {α : Type} [LinearOrderedField α] (audio1 audio2 : Buf α)
    (beats1 beats2 : List α) (transition_point : α) : Buf α × Buf α × α :=
  (audio1, audio2, snapToNearest beats1 transition_point)

/-- `AdvancedMixer.find_optimal_transition_point` (advanced_mixer.py, lines
105-135).  `transition_bars` is accepted but unused, as in the source. -/
def find_optimal_transition_point {α : Type} [LinearOrderedField α]
    (analysis1 analysis2 : TrackAnalysis α) (transition_bars : ℕ) : α × α :=
  let mixout_point := analysis1.outro.start
  let mixin_point := if 5 < analysis2.intro.stop then analysis2.intro.stop else 0
  (snapToNearest analysis1.beats mixout_point, mixin_point)

/-- The crossfade styles dispatched by `create_crossfade`; any unknown style
string falls back to the classic algorithm (`filterSweep` stands for that
fallback arm). -/
inductive Style : Type
  | classic
  | bassSwap
  | filterSweep

/-- `fade_start = mixout_sample` (advanced_mixer.py, line 178). -/
def fadeStart (mixout_sample : ℕ) : ℤ := (mixout_sample : ℤ)

/-- `fade_end = min(fade_start + fade_samples, audio1.shape[1])` (line 179). -/
def fadeEnd (lenA mixout_sample fade_samples : ℕ) : ℤ :=
  min ((mixout_sample : ℤ) + (fade_samples : ℤ)) (lenA : ℤ)

/-- `actual_fade_samples = fade_end - fade_start` (line 180). -/
def actualFadeSamples (lenA mixout_sample fade_samples : ℕ) : ℤ :=
  fadeEnd lenA mixout_sample fade_samples - fadeStart mixout_sample

/-- The `style == 'classic'` arm of `create_crossfade` (lines 182-211); the
final `else` arm (lines 251-277) is a textual copy of it in the source and
reuses this definition.  The unused `fade_in_curve` of line 185 is omitted
(it cannot fail once the fade-out linspace succeeded). -/
def classicBlend {α : Type} [LinearOrderedField α] (audio2 mixed : Buf α)
    (fade_start fade_end actual_fade_samples : ℤ) (mixin_sample : ℕ)
    (total_length : ℤ) : Except String (Buf α) := do
  let fade_out_curve ← linspace 1 0 actual_fade_samples
  let mixed ← mulInto mixed fade_start fade_end fade_out_curve
  let track2_fade_start : ℤ := (mixin_sample : ℤ)
  let track2_fade_end : ℤ :=
    min (track2_fade_start + actual_fade_samples) (audio2.length : ℤ)
  let track2_fade_samples := track2_fade_end - track2_fade_start
  let fade_in_actual ← linspace 0 1 track2_fade_samples
  let seg ← mulSameLen (npSlice audio2 track2_fade_start track2_fade_end) fade_in_actual
  let mixed ← addInto mixed fade_start (fade_start + track2_fade_samples) seg
  let remaining_start := fade_start + track2_fade_samples
  let remaining_audio2_start := track2_fade_end
  let remaining_length :=
    min ((audio2.length : ℤ) - remaining_audio2_start) (total_length - remaining_start)
  if 0 < remaining_length then
    setInto mixed remaining_start (remaining_start + remaining_length)
      (npSlice audio2 remaining_audio2_start (remaining_audio2_start + remaining_length))
  else .ok mixed

/-- The `style == 'bass_swap'` arm of `create_crossfade` (lines 213-249).
`actual_fade_samples // 2` is written with `Int` division, which agrees with
Python floor division on the nonnegative values that reach it. -/
def bassSwapBlend {α : Type} [LinearOrderedField α] (audio2 mixed : Buf α)
    (fade_start fade_end actual_fade_samples : ℤ) (mixin_sample : ℕ)
    (total_length : ℤ) : Except String (Buf α) := do
  let fade_out_curve ← linspace 1 0 actual_fade_samples
  let mixed ← mulInto mixed fade_start fade_end fade_out_curve
  let bass_fade_samples := actual_fade_samples / 2
  let track2_fade_start : ℤ := (mixin_sample : ℤ)
  let bass_fade_in ← linspace 0 1 bass_fade_samples
  let seg1 ← mulSameLen
    (npSlice audio2 track2_fade_start (track2_fade_start + bass_fade_samples)) bass_fade_in
  let mixed ← addInto mixed fade_start (fade_start + bass_fade_samples) seg1
  let remaining_fade_samples := actual_fade_samples - bass_fade_samples
  let remaining_fade_in ← linspace 0 1 remaining_fade_samples
  let seg2 ← mulSameLen
    (npSlice audio2 (track2_fade_start + bass_fade_samples)
      (track2_fade_start + actual_fade_samples)) remaining_fade_in
  let mixed ← addInto mixed (fade_start + bass_fade_samples) fade_end seg2
  let remaining_start := fade_end
  let remaining_audio2_start := track2_fade_start + actual_fade_samples
  let remaining_length :=
    min ((audio2.length : ℤ) - remaining_audio2_start) (total_length - remaining_start)
  if 0 < remaining_length then
    setInto mixed remaining_start (remaining_start + remaining_length)
      (npSlice audio2 remaining_audio2_start (remaining_audio2_start + remaining_length))
  else .ok mixed

/-- `AdvancedMixer.create_crossfade` (advanced_mixer.py, lines 137-281) after
the seconds-to-samples conversions of lines 158-160; the sample counts are
the already-converted `mixout_sample`, `mixin_sample`, `fade_samples`. -/
def create_crossfade {α : Type} [LinearOrderedField α] (audio1 audio2 : Buf α)
    (mixout_sample mixin_sample fade_samples : ℕ) (style : Style) :
    Except String (Buf α) := do
  let track2_start_in_mix : ℤ := (mixout_sample : ℤ)
  let total_length : ℤ :=
    max (audio1.length : ℤ) (track2_start_in_mix + ((audio2.length : ℤ) - (mixin_sample : ℤ)))
  let mixed0 : Buf α := List.replicate total_length.toNat (0, 0)
  let mixed ← setInto mixed0 0 (audio1.length : ℤ) audio1
  match style with
  | .classic =>
      classicBlend audio2 mixed (fadeStart mixout_sample)
        (fadeEnd audio1.length mixout_sample fade_samples)
        (actualFadeSamples audio1.length mixout_sample fade_samples)
        mixin_sample total_length
  | .bassSwap =>
      bassSwapBlend audio2 mixed (fadeStart mixout_sample)
        (fadeEnd audio1.length mixout_sample fade_samples)
        (actualFadeSamples audio1.length mixout_sample fade_samples)
        mixin_sample total_length
  | .filterSweep =>
      classicBlend audio2 mixed (fadeStart mixout_sample)
        (fadeEnd audio1.length mixout_sample fade_samples)
        (actualFadeSamples audio1.length mixout_sample fade_samples)
        mixin_sample total_length

/-- `create_crossfade` with its seconds interface (lines 158-160 do
`int(t * self.sample_rate)`).  Negative time inputs are outside the model
(see the header note); theorems assume nonnegative times. -/
def create_crossfade_sec {α : Type} [LinearOrderedField α] [FloorRing α]
    (audio1 audio2 : Buf α) (mixout_point mixin_point crossfade_duration : α)
    (style : Style) : Except String (Buf α) :=
  create_crossfade audio1 audio2 (toSamples mixout_point).toNat
    (toSamples mixin_point).toNat (toSamples crossfade_duration).toNat style

/-! ### normalize_audio (real-valued: RMS, dB and peak arithmetic) -/

/-- Sum of the squares of all samples of both channels. -/
def sumSq (audio : Buf ℝ) : ℝ := (audio.map fun fr => fr.1 ^ 2 + fr.2 ^ 2).sum

/-- `rms = np.sqrt(np.mean(audio ** 2))` over the `2 × n` array.  For an
empty buffer NumPy produces NaN and the `rms > 0` test is False; here the
convention `0 / 0 = 0` gives RMS `0` with the same branch outcome. -/
noncomputable def rmsOf (audio : Buf ℝ) : ℝ :=
  Real.sqrt (sumSq audio / (2 * audio.length))

/-- The linear gain of `normalize_audio`:
`10 ** ((target_db - 20 * log10(rms)) / 20)`. -/
noncomputable def normGain (audio : Buf ℝ) (target_db : ℝ) : ℝ :=
  (10 : ℝ) ^ ((target_db - 20 * Real.logb 10 (rmsOf audio)) / 20)

/-- `np.max(np.abs(audio))` over both channels (with `0` for the empty
buffer, on which NumPy would raise; no theorem below depends on that case). -/
def maxAbs (audio : Buf ℝ) : ℝ := (audio.map fun fr => max |fr.1| |fr.2|).foldr max 0

/-- Scalar gain applied to a whole buffer (`audio * gain_linear`). -/
def scaleBuf (c : ℝ) (audio : Buf ℝ) : Buf ℝ := audio.map fun fr => (fr.1 * c, fr.2 * c)

/-- `AdvancedMixer.normalize_audio` (advanced_mixer.py, lines 283-312);
`0.99` is written `99/100`. -/
noncomputable def normalize_audio (audio : Buf ℝ) (target_db : ℝ) : Buf ℝ :=
  if 0 < rmsOf audio then
    let normalized := scaleBuf (normGain audio target_db) audio
    let max_val := maxAbs normalized
    if 1 < max_val then
      normalized.map fun fr => (fr.1 / max_val * (99 / 100), fr.2 / max_val * (99 / 100))
    else normalized
  else audio

/-! ### mix_playlist -/

/-- One iteration of the `mix_playlist` loop (advanced_mixer.py, lines
367-431) on the running `(buffer, synthetic analysis)` state.  The harmonic
key check only prints a warning and is stateless.  The synthetic analysis
dict built by the source contains only `bpm`, `beats`, `segments.outro` and
`camelot`; its `intro` and `duration` are never read again, and are filled
with `0` here. -/
noncomputable def mixStep (stretch : List ℝ → ℝ → List ℝ)
    (sync_beats do_match_tempo : Bool) (transition_bars : ℕ)
    (transition_style : Style) (auto_detect : Bool) (reference_bpm : ℝ)
    (state next : Buf ℝ × TrackAnalysis ℝ) :
    Except String (Buf ℝ × TrackAnalysis ℝ) := do
  let (current_audio, current_analysis) := state
  let (next_audio0, next_analysis0) := next
  let (next_audio, next_analysis) ←
    if do_match_tempo then do
      let stretched ← match_tempo stretch next_audio0 next_analysis0.bpm reference_bpm
      let tempo_ratio := reference_bpm / next_analysis0.bpm
      pure (stretched,
        { next_analysis0 with beats := next_analysis0.beats.map fun b => b / tempo_ratio })
    else pure (next_audio0, next_analysis0)
  let (mixout_point0, mixin_point) :=
    if auto_detect then
      find_optimal_transition_point current_analysis next_analysis transition_bars
    else
      ((current_audio.length : ℝ) / (SR : ℝ) - 60 / reference_bpm * 4 * (transition_bars : ℝ), 0)
  let mixout_point :=
    if sync_beats then
      (align_beats current_audio next_audio current_analysis.beats
        next_analysis.beats mixout_point0).2.2
    else mixout_point0
  let crossfade_duration := 60 / reference_bpm * 4 * (transition_bars : ℝ)
  let merged ← create_crossfade_sec current_audio next_audio mixout_point
    mixin_point crossfade_duration transition_style
  let offset := mixout_point - mixin_point
  pure (merged,
    { bpm := reference_bpm
      beats := next_analysis.beats.map fun b => b + offset
      camelot := next_analysis.camelot
      intro := ⟨0, 0⟩
      outro := ⟨next_analysis.outro.start + offset, next_analysis.outro.stop + offset⟩
      duration := 0 })

/-- `AdvancedMixer.mix_playlist` (advanced_mixer.py, lines 328-440) over
already-decoded `(buffer, analysis)` pairs: empty input raises, a single
track is written back exactly as decoded, otherwise the first track is
normalized and the remaining tracks are folded in with `mixStep`, followed by
a final normalization.  `harmonic_mix` only toggles a printed warning. -/
noncomputable def mix_playlist (stretch : List ℝ → ℝ → List ℝ)
    (tracks : List (Buf ℝ × TrackAnalysis ℝ))
    (sync_beats do_match_tempo harmonic_mix : Bool) (transition_bars : ℕ)
    (transition_style : Style) (auto_detect : Bool) : Except String (Buf ℝ) :=
  match tracks with
  | [] => .error "No tracks provided for mixing"
  | [(audio, _)] => .ok audio
  | (audio0, analysis0) :: rest => do
      let current_audio := normalize_audio audio0 (-14)
      let reference_bpm := analysis0.bpm
      let final ← rest.foldlM
        (mixStep stretch sync_beats do_match_tempo transition_bars
          transition_style auto_detect reference_bpm)
        (current_audio, analysis0)
      pure (normalize_audio final.1 (-14))

/-! ## music_extender.py : extend_track -/

/-- The transition plan of `extend_track` (music_extender.py, lines 87-101):
`find_optimal_transition_point(analysis, analysis)`, then the degenerate
fallback when `loop_length = mixout - mixin` is non-positive.  Returns
`(loop_length_seconds, mixout_point, mixin_point)`; `0.8/0.9/0.1` are
written as fractions. -/
def transitionParams {α : Type} [LinearOrderedField α]
    (analysis : TrackAnalysis α) (transition_bars : ℕ) : α × α × α :=
  let p := find_optimal_transition_point analysis analysis transition_bars
  let loop_length_seconds := p.1 - p.2
  if loop_length_seconds ≤ 0 then
    (analysis.duration * (4 / 5), analysis.duration * (9 / 10), analysis.duration * (1 / 10))
  else (loop_length_seconds, p.1, p.2)

/-- `required_loops = int(np.ceil((target_duration - mixin_point) /
loop_length_seconds))` (music_extender.py, line 102). -/
def requiredLoops {α : Type} [LinearOrderedField α] [FloorRing α]
    (analysis : TrackAnalysis α) (target_duration : α) (transition_bars : ℕ) : ℤ :=
  let p := transitionParams analysis transition_bars
  ⌈(target_duration - p.2.2) / p.1⌉

/-- One iteration of the accumulation loop of `extend_track`
(music_extender.py, lines 192-267): locate the splice a constant
`original_duration - mixout_point` before the end of the growing buffer,
keep the prefix up to the end of the crossfade window, and concatenate
`[prev body] ++ [blended overlap] ++ [rest of a fresh copy from
mixin_point]`. -/
def spliceOnce {α : Type} [LinearOrderedField α] [FloorRing α] (audio : Buf α)
    (original_duration mixout_point mixin_point : α) (crossfade_samples : ℕ)
    (full_mix : Buf α) : Except String (Buf α) := do
  let time_from_end := original_duration - mixout_point
  let current_mixout_index : ℤ := (full_mix.length : ℤ) - toSamples time_from_end
  let fade_start_idx := current_mixout_index
  let fade_end_idx := fade_start_idx + (crossfade_samples : ℤ)
  let prev_keep := pySliceTo full_mix fade_end_idx
  let next_start_idx := (toSamples mixin_point).toNat
  let next_audio := audio.drop next_start_idx
  let fade_out ← linspace 1 0 (crossfade_samples : ℤ)
  let fade_in ← linspace 0 1 (crossfade_samples : ℤ)
  let overlap_prev := pyNegTail prev_keep crossfade_samples
  let overlap_next := next_audio.take crossfade_samples
  let op ← mulSameLen overlap_prev fade_out
  let onext ← mulSameLen overlap_next fade_in
  let overlap_mixed ← addSameLen op onext
  let prev_body := pyNegInit prev_keep crossfade_samples
  let next_body := next_audio.drop crossfade_samples
  pure (prev_body ++ overlap_mixed ++ next_body)

/-- The `for i in range(required_loops - 1)` accumulation loop of
`extend_track` with its bottom `break` once the accumulated length (in
seconds) reaches the target; also returns the number of iterations
executed. -/
def extendLoop {α : Type} [LinearOrderedField α] [FloorRing α] (audio : Buf α)
    (original_duration mixout_point mixin_point : α) (crossfade_samples : ℕ)
    (target_duration : α) : ℕ → Buf α → Except String (Buf α × ℕ)
  | 0, full_mix => .ok (full_mix, 0)
  | fuel + 1, full_mix => do
      let next ← spliceOnce audio original_duration mixout_point mixin_point
        crossfade_samples full_mix
      if target_duration ≤ (next.length : α) / (SR : α) then .ok (next, 1)
      else do
        let r ← extendLoop audio original_duration mixout_point mixin_point
          crossfade_samples target_duration fuel next
        .ok (r.1, r.2 + 1)

/-- `MusicExtender.extend_track` (music_extender.py, lines 36-281) for an
audio input, over an already-parsed target duration and the external
analyzer's result: when `required_loops <= 1` the decoded buffer is written
back unchanged; otherwise the accumulation loop runs and its result is
normalized before being written.  (The video/image handling, the dead first
loop of lines 125-143 and the unused `part_a`/`part_b` of lines 152-165 have
no effect on the produced audio.) -/
noncomputable def extend_track (audio : Buf ℝ) (analysis : TrackAnalysis ℝ)
    (target_duration : ℝ) (transition_bars : ℕ) : Except String (Buf ℝ) :=
  let p := transitionParams analysis transition_bars
  let required_loops := requiredLoops analysis target_duration transition_bars
  if required_loops ≤ 1 then .ok audio
  else do
    let crossfade_duration := 60 / analysis.bpm * 4 * (transition_bars : ℝ)
    let crossfade_samples := (toSamples crossfade_duration).toNat
    let r ← extendLoop audio analysis.duration p.2.1 p.2.2 crossfade_samples
      target_duration (required_loops - 1).toNat audio
    pure (normalize_audio r.1 (-14))

/-! ## Concrete inputs used by witnesses and counterexamples -/

/-- A one-frame stereo buffer. -/
def wbufA : Buf ℚ := [(1, 2)]

/-- Another one-frame stereo buffer. -/
def wbufB : Buf ℚ := [(5, 6)]

/-- Two-frame track A for the fade-window counterexample. -/
def c4short : Buf ℚ := [(1, 1), (2, 2)]

/-- One-frame track B for the fade-window counterexample. -/
def c4tail : Buf ℚ := [(1, 1)]

/-- One-frame track A whose length equals the requested fade start. -/
def c4one : Buf ℚ := [(1, 1)]

/-- Two-frame track B for the degenerate-concatenation witness. -/
def c4two : Buf ℚ := [(2, 2), (3, 3)]

/-- Analysis with two beats equidistant from the outro start (tie case). -/
def anTie : TrackAnalysis ℚ :=
  { bpm := 120, beats := [1, 3], camelot := "8A",
    intro := ⟨0, 1⟩, outro := ⟨2, 4⟩, duration := 4 }

/-- Analysis whose detected intro is longer than 5 seconds. -/
def anLongIntro : TrackAnalysis ℚ :=
  { bpm := 120, beats := [], camelot := "9A",
    intro := ⟨0, 6⟩, outro := ⟨8, 10⟩, duration := 10 }

/-- An identity stand-in for the external time-stretch primitive. -/
def idStretch : List ℚ → ℚ → List ℚ := fun l _ => l

/-- Buffer with RMS 5/2 and peak 4, for the normalization witness. -/
def wNormBuf : Buf ℝ := [(3, 4), (0, 0)]

/-- An 8-frame silent stereo buffer. -/
def zeros8 : Buf ℝ := List.replicate 8 (0, 0)

/-- A 4-frame silent stereo buffer. -/
def zeros4 : Buf ℝ := List.replicate 4 (0, 0)

/-- Analysis of an 8-sample-long track (8/44100 s) with a single sparse beat
at 5/44100 s: the snapped mixout point lands well before the track end even
though the target is below the duration.  Its BPM makes the 1-bar crossfade
window exactly 2 samples. -/
noncomputable def anSparse : TrackAnalysis ℝ :=
  { bpm := 5292000, beats := [5 / 44100], camelot := "8A",
    intro := ⟨0, 1 / 44100⟩, outro := ⟨6 / 44100, 8 / 44100⟩,
    duration := 8 / 44100 }

/-- Analysis of a 4-sample-long track whose 1-bar crossfade window (4
samples) swallows the whole appended copy: each splice adds zero length, so
the loop exhausts its iterations below the target. -/
noncomputable def anWide : TrackAnalysis ℝ :=
  { bpm := 2646000, beats := [3 / 44100], camelot := "8A",
    intro := ⟨0, 1 / 44100⟩, outro := ⟨3 / 44100, 4 / 44100⟩,
    duration := 4 / 44100 }

/-! ## Lemmas: Except plumbing and length preservation of buffer operations -/

theorem exceptBind_ok {X Y : Type} {x : Except String X} {f : X → Except String Y}
    {b : Y} (h : x >>= f = .ok b) : ∃ a, x = .ok a ∧ f a = .ok b := by
  cases x with
  | error e => simp [Bind.bind, Except.bind] at h
  | ok a => exact ⟨a, rfl, by simpa [Bind.bind, Except.bind] using h⟩

theorem linspace_ok_nonneg {α : Type} [LinearOrderedField α] {a b : α} {n : ℤ}
    {l : List α} (h : linspace a b n = .ok l) : 0 ≤ n := by
  unfold linspace at h
  split at h
  · simp at h
  · omega

theorem linspace_ok_length {α : Type} [LinearOrderedField α] {a b : α} {n : ℤ}
    {l : List α} (h : linspace a b n = .ok l) : l.length = n.toNat := by
  unfold linspace at h
  split at h
  · simp at h
  · injection h with h
    subst h
    simp only [List.length_map, List.length_range]

theorem linspace_of_nonneg {α : Type} [LinearOrderedField α] (a b : α) {n : ℤ}
    (hn : 0 ≤ n) :
    linspace a b n =
      .ok ((List.range n.toNat).map fun i : ℕ => a + (b - a) * (i : α) / ((n : α) - 1)) := by
  unfold linspace
  rw [if_neg (by omega)]

theorem setInto_length {β : Type} {l : List β} {s e : ℤ} {src r : List β}
    (hs : 0 ≤ s) (hse : s ≤ e) (h : setInto l s e src = .ok r) :
    r.length = l.length := by
  unfold setInto at h
  split at h
  case isTrue hc =>
    injection h with h
    subst h
    simp only [List.length_append, List.length_take, List.length_drop]
    omega
  case isFalse => simp at h

theorem mulSameLen_ok_length {α : Type} [LinearOrderedField α] {src : Buf α}
    {curve : List α} {r : Buf α} (h : mulSameLen src curve = .ok r) :
    r.length = src.length := by
  unfold mulSameLen at h
  split at h
  case isTrue hc =>
    injection h with h
    subst h
    simp [hc]
  case isFalse => simp at h

theorem addSameLen_ok_length {α : Type} [LinearOrderedField α] {xs ys : Buf α}
    {r : Buf α} (h : addSameLen xs ys = .ok r) : r.length = xs.length := by
  unfold addSameLen at h
  split at h
  case isTrue hc =>
    injection h with h
    subst h
    simp [hc]
  case isFalse => simp at h

theorem mulInto_length {α : Type} [LinearOrderedField α] {l : Buf α} {s e : ℤ}
    {curve : List α} {r : Buf α} (hs : 0 ≤ s) (hse : s ≤ e)
    (h : mulInto l s e curve = .ok r) : r.length = l.length := by
  unfold mulInto at h
  obtain ⟨seg, _, hset⟩ := exceptBind_ok h
  exact setInto_length hs hse hset

theorem addInto_length {α : Type} [LinearOrderedField α] {l : Buf α} {s e : ℤ}
    {src : Buf α} {r : Buf α} (hs : 0 ≤ s) (hse : s ≤ e)
    (h : addInto l s e src = .ok r) : r.length = l.length := by
  unfold addInto at h
  obtain ⟨seg, _, hset⟩ := exceptBind_ok h
  exact setInto_length hs hse hset

theorem classicBlend_length {α : Type} [LinearOrderedField α] {audio2 mixed : Buf α}
    {fade_start fade_end actual : ℤ} {mixin_sample : ℕ} {total : ℤ} {r : Buf α}
    (hfs : 0 ≤ fade_start) (hfe : fade_end = fade_start + actual)
    (h : classicBlend audio2 mixed fade_start fade_end actual mixin_sample total = .ok r) :
    r.length = mixed.length := by
  unfold classicBlend at h
  simp only [] at h
  obtain ⟨foc, hfoc, h⟩ := exceptBind_ok h
  have hact : 0 ≤ actual := linspace_ok_nonneg hfoc
  obtain ⟨m1, hm1, h⟩ := exceptBind_ok h
  have hl1 : m1.length = mixed.length := mulInto_length hfs (by omega) hm1
  obtain ⟨fia, hfia, h⟩ := exceptBind_ok h
  have ht2 : 0 ≤ min ((mixin_sample : ℤ) + actual) (audio2.length : ℤ) - (mixin_sample : ℤ) :=
    linspace_ok_nonneg hfia
  obtain ⟨seg, _, h⟩ := exceptBind_ok h
  obtain ⟨m2, hm2, h⟩ := exceptBind_ok h
  have hl2 : m2.length = m1.length := addInto_length hfs (by omega) hm2
  split at h
  case isTrue hrl =>
    have := setInto_length (by omega) (by omega) h
    omega
  case isFalse =>
    injection h with h
    subst h
    omega

theorem bassSwapBlend_length {α : Type} [LinearOrderedField α] {audio2 mixed : Buf α}
    {fade_start fade_end actual : ℤ} {mixin_sample : ℕ} {total : ℤ} {r : Buf α}
    (hfs : 0 ≤ fade_start) (hfe : fade_end = fade_start + actual)
    (h : bassSwapBlend audio2 mixed fade_start fade_end actual mixin_sample total = .ok r) :
    r.length = mixed.length := by
  unfold bassSwapBlend at h
  simp only [] at h
  obtain ⟨foc, hfoc, h⟩ := exceptBind_ok h
  have hact : 0 ≤ actual := linspace_ok_nonneg hfoc
  obtain ⟨m1, hm1, h⟩ := exceptBind_ok h
  have hl1 : m1.length = mixed.length := mulInto_length hfs (by omega) hm1
  have hbass0 : 0 ≤ actual / 2 := Int.ediv_nonneg hact (by norm_num)
  have hbassle : actual / 2 ≤ actual := Int.ediv_le_self 2 hact
  obtain ⟨bfi, _, h⟩ := exceptBind_ok h
  obtain ⟨seg1, _, h⟩ := exceptBind_ok h
  obtain ⟨m2, hm2, h⟩ := exceptBind_ok h
  have hl2 : m2.length = m1.length := addInto_length hfs (by omega) hm2
  obtain ⟨rfi, _, h⟩ := exceptBind_ok h
  obtain ⟨seg2, _, h⟩ := exceptBind_ok h
  obtain ⟨m3, hm3, h⟩ := exceptBind_ok h
  have hl3 : m3.length = m2.length := addInto_length (by omega) (by omega) hm3
  split at h
  case isTrue hrl =>
    have := setInto_length (by omega) (by omega) h
    omega
  case isFalse =>
    injection h with h
    subst h
    omega

theorem create_crossfade_length {α : Type} [LinearOrderedField α]
    {audio1 audio2 : Buf α} {ms mis fs : ℕ} {style : Style} {out : Buf α}
    (h : create_crossfade audio1 audio2 ms mis fs style = .ok out) :
    (out.length : ℤ) =
      max (audio1.length : ℤ) ((ms : ℤ) + ((audio2.length : ℤ) - (mis : ℤ))) := by
  unfold create_crossfade at h
  obtain ⟨m1, hm1, h⟩ := exceptBind_ok h
  have hm1l : m1.length =
      (max (audio1.length : ℤ) ((ms : ℤ) + ((audio2.length : ℤ) - (mis : ℤ)))).toNat := by
    have := setInto_length (le_refl 0) (by positivity) hm1
    rw [this]
    simp
  have hmaxnn : 0 ≤ max (audio1.length : ℤ) ((ms : ℤ) + ((audio2.length : ℤ) - (mis : ℤ))) :=
    le_trans (by positivity) (le_max_left _ _)
  have hfe : fadeEnd audio1.length ms fs =
      fadeStart ms + actualFadeSamples audio1.length ms fs := by
    unfold actualFadeSamples
    ring
  have hfs0 : 0 ≤ fadeStart ms := by
    unfold fadeStart
    positivity
  cases style with
  | classic =>
    have := classicBlend_length hfs0 hfe h
    omega
  | bassSwap =>
    have := bassSwapBlend_length hfs0 hfe h
    omega
  | filterSweep =>
    have := classicBlend_length hfs0 hfe h
    omega

theorem toSamples_nonneg {α : Type} [LinearOrderedField α] [FloorRing α] {t : α}
    (ht : 0 ≤ t) : 0 ≤ toSamples t := by
  unfold toSamples pyInt
  rw [if_pos (by positivity)]
  exact Int.floor_nonneg.2 (by positivity)

theorem exceptBind_ok_eval {X Y : Type} (a : X) (f : X → Except String Y) :
    (Except.ok a >>= f : Except String Y) = f a := rfl

theorem toSamples_zeroQ : toSamples (0 : ℚ) = 0 := by
  unfold toSamples pyInt
  norm_num

/-- C1: whenever `create_crossfade` returns a buffer (time inputs
nonnegative; negative times would hit NumPy wraparound indexing and are
outside the model), its length is exactly
`max(len(A), mixout_samples + (len(B) - mixin_samples))`, with the sample
counts obtained from the time inputs at the fixed 44100 Hz rate. -/
theorem c1_crossfade_output_length {α : Type} [LinearOrderedField α] [FloorRing α]
    (audio1 audio2 : Buf α) (mixout_point mixin_point crossfade_duration : α)
    (style : Style) (out : Buf α) (hmo : 0 ≤ mixout_point) (hmi : 0 ≤ mixin_point)
    (hcf : 0 ≤ crossfade_duration)
    (h : create_crossfade_sec audio1 audio2 mixout_point mixin_point
      crossfade_duration style = .ok out) :
    (out.length : ℤ) =
      max (audio1.length : ℤ)
        (toSamples mixout_point + ((audio2.length : ℤ) - toSamples mixin_point)) := by
  unfold create_crossfade_sec at h
  have h1 := create_crossfade_length h
  rw [Int.toNat_of_nonneg (toSamples_nonneg hmo),
    Int.toNat_of_nonneg (toSamples_nonneg hmi)] at h1
  exact h1

theorem c1_crossfade_output_length_witness :
    ((wbufB.length : ℤ) =
      max (wbufA.length : ℤ)
        (toSamples (0 : ℚ) + ((wbufB.length : ℤ) - toSamples (0 : ℚ)))) := by
  apply c1_crossfade_output_length wbufA wbufB 0 0 0 Style.classic wbufB le_rfl le_rfl le_rfl
  unfold create_crossfade_sec
  rw [toSamples_zeroQ]
  rfl

theorem linspace_zero {α : Type} [LinearOrderedField α] (a b : α) :
    linspace a b 0 = .ok [] := rfl

theorem npSlice_self {α : Type} (l : List α) (s : ℤ) : npSlice l s s = [] := by
  unfold npSlice
  simp

theorem mulSameLen_nil {α : Type} [LinearOrderedField α] :
    mulSameLen ([] : Buf α) [] = .ok [] := rfl

theorem mulInto_self_empty {α : Type} [LinearOrderedField α] (l : Buf α) (s : ℤ) :
    mulInto l s s [] = .ok l := by
  unfold mulInto npSlice mulSameLen setInto
  simp [Bind.bind, Except.bind, List.take_append_drop]

theorem addInto_self_empty {α : Type} [LinearOrderedField α] (l : Buf α) (s : ℤ) :
    addInto l s s [] = .ok l := by
  unfold addInto npSlice addSameLen setInto
  simp [Bind.bind, Except.bind, List.take_append_drop]

theorem classicBlend_zero {α : Type} [LinearOrderedField α] (audio2 mixed : Buf α)
    (s : ℤ) (mis : ℕ) (T : ℤ) (hmi : mis ≤ audio2.length) :
    classicBlend audio2 mixed s s 0 mis T =
      if 0 < min ((audio2.length : ℤ) - (mis : ℤ)) (T - s) then
        setInto mixed s (s + min ((audio2.length : ℤ) - (mis : ℤ)) (T - s))
          (npSlice audio2 (mis : ℤ)
            ((mis : ℤ) + min ((audio2.length : ℤ) - (mis : ℤ)) (T - s)))
      else .ok mixed := by
  unfold classicBlend
  simp only [add_zero]
  rw [show (mis : ℤ) ⊓ (audio2.length : ℤ) = (mis : ℤ) from by omega]
  simp only [sub_self, linspace_zero, exceptBind_ok_eval, mulInto_self_empty,
    npSlice_self, mulSameLen_nil, addInto_self_empty, add_zero]

theorem crossfade_degenerate {α : Type} [LinearOrderedField α]
    (audio1 audio2 : Buf α) (mis fs : ℕ) (hmi : mis ≤ audio2.length) :
    create_crossfade audio1 audio2 audio1.length mis fs Style.classic =
      .ok (audio1 ++ audio2.drop mis) := by
  unfold create_crossfade
  simp only []
  have hT : max (audio1.length : ℤ)
      ((audio1.length : ℤ) + ((audio2.length : ℤ) - (mis : ℤ)))
      = (audio1.length : ℤ) + ((audio2.length : ℤ) - (mis : ℤ)) := by omega
  rw [hT]
  have hTn : ((audio1.length : ℤ) + ((audio2.length : ℤ) - (mis : ℤ))).toNat
      = audio1.length + (audio2.length - mis) := by omega
  rw [hTn]
  have hset1 : setInto
      (List.replicate (audio1.length + (audio2.length - mis)) ((0 : α), (0 : α)))
      0 (audio1.length : ℤ) audio1
      = .ok (audio1 ++ List.replicate (audio2.length - mis) ((0 : α), (0 : α))) := by
    unfold setInto
    rw [if_pos (by simp only [List.length_replicate]; push_cast; omega)]
    simp [List.drop_replicate]
  rw [hset1]
  simp only [exceptBind_ok_eval]
  have hFS : fadeStart audio1.length = (audio1.length : ℤ) := rfl
  have hFE : fadeEnd audio1.length audio1.length fs = (audio1.length : ℤ) := by
    unfold fadeEnd
    omega
  have hACT : actualFadeSamples audio1.length audio1.length fs = 0 := by
    unfold actualFadeSamples fadeStart fadeEnd
    omega
  rw [hFS, hFE, hACT, classicBlend_zero _ _ _ _ _ hmi]
  rw [show min ((audio2.length : ℤ) - (mis : ℤ))
      ((audio1.length : ℤ) + ((audio2.length : ℤ) - (mis : ℤ)) - (audio1.length : ℤ))
      = (audio2.length : ℤ) - (mis : ℤ) from by omega]
  by_cases hrl : 0 < (audio2.length : ℤ) - (mis : ℤ)
  · rw [if_pos hrl]
    have hslice : npSlice audio2 (mis : ℤ)
        ((mis : ℤ) + ((audio2.length : ℤ) - (mis : ℤ))) = audio2.drop mis := by
      unfold npSlice
      rw [show ((mis : ℤ) + ((audio2.length : ℤ) - (mis : ℤ)) - (mis : ℤ))
        = (audio2.length : ℤ) - (mis : ℤ) from by ring]
      rw [show ((mis : ℤ)).toNat = mis from by omega]
      exact List.take_of_length_le (by simp only [List.length_drop]; omega)
    rw [hslice]
    unfold setInto
    rw [if_pos (by
      simp only [List.length_append, List.length_replicate, List.length_drop]
      push_cast
      omega)]
    rw [show ((audio1.length : ℤ)).toNat = audio1.length from by omega]
    rw [show ((audio1.length : ℤ) + ((audio2.length : ℤ) - (mis : ℤ))).toNat
      = audio1.length + (audio2.length - mis) from by omega]
    rw [List.take_left, show audio1.length + (audio2.length - mis)
      = (audio1 ++ List.replicate (audio2.length - mis) ((0 : α), (0 : α))).length from by
        simp]
    rw [List.drop_length]
    simp
  · rw [if_neg hrl]
    have heq : audio2.length = mis := by omega
    rw [show audio2.length - mis = 0 from by omega]
    simp [List.drop_eq_nil_of_le (le_of_eq heq)]

/-- C4 (amended): as long as the requested fade start lies inside track A
(`mixout_sample ≤ len(A)`), the fade window is well formed:
`actual_fade_samples ≥ 0` and `fade_end ≤ len(A)`; and in the zero-length
window case (`mixout_sample = len(A)`, with `mixin_sample ≤ len(B)`) the call
degenerates to concatenating A with B's remainder instead of raising.  (When
`mixout_sample > len(A)` the subtraction goes negative and the call raises —
see the counterexample.) -/
theorem c4_fade_window {α : Type} [LinearOrderedField α] [FloorRing α]
    (audio1 audio2 : Buf α) (mixout_point mixin_point crossfade_duration : α)
    (hmo : 0 ≤ mixout_point) (hmi : 0 ≤ mixin_point) (hcf : 0 ≤ crossfade_duration)
    (hlen : toSamples mixout_point ≤ (audio1.length : ℤ)) :
    0 ≤ actualFadeSamples audio1.length (toSamples mixout_point).toNat
        (toSamples crossfade_duration).toNat
    ∧ fadeEnd audio1.length (toSamples mixout_point).toNat
        (toSamples crossfade_duration).toNat ≤ (audio1.length : ℤ)
    ∧ (toSamples mixout_point = (audio1.length : ℤ) →
        toSamples mixin_point ≤ (audio2.length : ℤ) →
        create_crossfade_sec audio1 audio2 mixout_point mixin_point
            crossfade_duration Style.classic
          = .ok (audio1 ++ audio2.drop (toSamples mixin_point).toNat)) := by
  have hmo0 := toSamples_nonneg hmo
  have hmi0 := toSamples_nonneg hmi
  refine ⟨?_, ?_, ?_⟩
  · unfold actualFadeSamples fadeStart fadeEnd
    omega
  · unfold fadeEnd
    omega
  · intro h1 h2
    unfold create_crossfade_sec
    rw [show (toSamples mixout_point).toNat = audio1.length from by omega]
    exact crossfade_degenerate audio1 audio2 _ _ (by omega)

/-- C4 counterexample: with track A of length 2 samples, `mixout_point =
5/44100` s and a `3/44100` s crossfade, the computed `actual_fade_samples`
is `-3`, i.e. negative, and the call raises (NumPy `linspace` rejects the
negative sample count) instead of degenerating to a concatenation. -/
theorem c4_fade_window_counterexample :
    actualFadeSamples c4short.length 5 3 = -3
    ∧ (create_crossfade_sec c4short c4tail ((5 : ℚ) / 44100) 0 ((3 : ℚ) / 44100)
        Style.classic).toOption = none := by
  have h5 : toSamples ((5 : ℚ) / 44100) = 5 := by
    unfold toSamples pyInt SR
    norm_num
  have h3 : toSamples ((3 : ℚ) / 44100) = 3 := by
    unfold toSamples pyInt SR
    norm_num
  constructor
  · decide
  · unfold create_crossfade_sec
    rw [h5, h3, toSamples_zeroQ]
    rfl

theorem c4_fade_window_witness :
    0 ≤ actualFadeSamples c4one.length (toSamples ((1 : ℚ) / 44100)).toNat
        (toSamples (0 : ℚ)).toNat
    ∧ fadeEnd c4one.length (toSamples ((1 : ℚ) / 44100)).toNat
        (toSamples (0 : ℚ)).toNat ≤ (c4one.length : ℤ)
    ∧ create_crossfade_sec c4one c4two ((1 : ℚ) / 44100) ((1 : ℚ) / 44100) (0 : ℚ)
        Style.classic = .ok (c4one ++ c4two.drop (toSamples ((1 : ℚ) / 44100)).toNat) := by
  have h1 : toSamples ((1 : ℚ) / 44100) = 1 := by
    unfold toSamples pyInt SR
    norm_num
  have h := c4_fade_window c4one c4two ((1 : ℚ) / 44100) ((1 : ℚ) / 44100) 0
    (by norm_num) (by norm_num) le_rfl (by rw [h1]; norm_num [c4one])
  exact ⟨h.1, h.2.1,
    h.2.2 (by rw [h1]; norm_num [c4one]) (by rw [h1]; norm_num [c4two])⟩

theorem snapGo_first {α : Type} [LinearOrderedField α] (p : α) :
    ∀ (bs : List α) (best : α),
      ∃ pre suf, best :: bs = pre ++ snapGo p bs best :: suf
        ∧ (∀ x ∈ pre, |snapGo p bs best - p| < |x - p|)
        ∧ (∀ x ∈ best :: bs, |snapGo p bs best - p| ≤ |x - p|) := by
  intro bs
  induction bs with
  | nil =>
    intro best
    refine ⟨[], [], rfl, by simp, ?_⟩
    intro x hx
    rcases List.mem_singleton.1 hx with rfl
    simp [snapGo]
  | cons b bs ih =>
    intro best
    by_cases hc : |b - p| < |best - p|
    · have hgo : snapGo p (b :: bs) best = snapGo p bs b := by
        simp [snapGo, hc]
      obtain ⟨pre, suf, hdec, hpre, hmin⟩ := ih b
      have hlt : |snapGo p (b :: bs) best - p| < |best - p| := by
        rw [hgo]
        exact lt_of_le_of_lt (hmin b (List.mem_cons_self b bs)) hc
      refine ⟨best :: pre, suf, ?_, ?_, ?_⟩
      · rw [hgo, List.cons_append, ← hdec]
      · intro x hx
        rcases List.mem_cons.1 hx with rfl | hx
        · exact hlt
        · rw [hgo]
          exact hpre x hx
      · intro x hx
        rcases List.mem_cons.1 hx with rfl | hx
        · exact le_of_lt hlt
        · rw [hgo]
          exact hmin x hx
    · have hgo : snapGo p (b :: bs) best = snapGo p bs best := by
        simp [snapGo, hc]
      obtain ⟨pre, suf, hdec, hpre, hmin⟩ := ih best
      have hble : |best - p| ≤ |b - p| := not_lt.1 hc
      cases pre with
      | nil =>
        rw [List.nil_append] at hdec
        injection hdec with h1 h2
        refine ⟨[], b :: bs, ?_, by simp, ?_⟩
        · rw [List.nil_append, hgo, ← h1]
        · intro x hx
          have hrbest : |snapGo p (b :: bs) best - p| = |best - p| := by
            rw [hgo, ← h1]
          rcases List.mem_cons.1 hx with rfl | hx
          · exact le_of_eq hrbest
          · rcases List.mem_cons.1 hx with rfl | hx
            · rw [hrbest]
              exact hble
            · rw [hgo]
              exact hmin x (List.mem_cons_of_mem best hx)
      | cons q pre' =>
        rw [List.cons_append] at hdec
        injection hdec with h1 h2
        have hqpre : |snapGo p bs best - p| < |best - p| := by
          have := hpre q (List.mem_cons_self q pre')
          rw [← h1] at this
          exact this
        refine ⟨best :: b :: pre', suf, ?_, ?_, ?_⟩
        · rw [hgo]
          simp only [List.cons_append]
          rw [← h2]
        · intro x hx
          rcases List.mem_cons.1 hx with rfl | hx
          · rw [hgo]
            exact hqpre
          · rcases List.mem_cons.1 hx with rfl | hx
            · rw [hgo]
              exact lt_of_lt_of_le hqpre hble
            · rw [hgo]
              exact hpre x (List.mem_cons_of_mem q hx)
        · intro x hx
          rcases List.mem_cons.1 hx with rfl | hx
          · rw [hgo]
            exact hmin x (List.mem_cons_self _ _)
          · rcases List.mem_cons.1 hx with rfl | hx
            · rw [hgo]
              exact le_trans (le_of_lt hqpre) hble
            · rw [hgo]
              exact hmin x (List.mem_cons_of_mem best hx)

/-- C5: `find_optimal_transition_point` returns as mixout point the element
of `analysis1.beats` nearest (by absolute time difference) to
`analysis1.segments.outro.start`, with ties broken toward the first
candidate of the ascending beat list (the `np.argmin` first-minimum rule),
or `outro.start` itself when the beat list is empty; and as mixin point
`analysis2.segments.intro.end` exactly when that value exceeds 5 seconds and
`0` otherwise, with no beat snapping applied to it. -/
theorem c5_transition_point_policy {α : Type} [LinearOrderedField α]
    (analysis1 analysis2 : TrackAnalysis α) (bars : ℕ) :
    ((find_optimal_transition_point analysis1 analysis2 bars).2
      = if 5 < analysis2.intro.stop then analysis2.intro.stop else 0)
    ∧ (analysis1.beats = [] →
        (find_optimal_transition_point analysis1 analysis2 bars).1
          = analysis1.outro.start)
    ∧ (analysis1.beats ≠ [] →
        (find_optimal_transition_point analysis1 analysis2 bars).1 ∈ analysis1.beats
        ∧ (∀ b ∈ analysis1.beats,
            |(find_optimal_transition_point analysis1 analysis2 bars).1
              - analysis1.outro.start| ≤ |b - analysis1.outro.start|)
        ∧ ∃ pre suf,
            analysis1.beats
              = pre ++ (find_optimal_transition_point analysis1 analysis2 bars).1 :: suf
            ∧ ∀ b ∈ pre,
                |(find_optimal_transition_point analysis1 analysis2 bars).1
                  - analysis1.outro.start| < |b - analysis1.outro.start|) := by
  refine ⟨rfl, ?_, ?_⟩
  · intro h
    simp [find_optimal_transition_point, snapToNearest, h]
  · intro h
    obtain ⟨b, bs, hb⟩ := List.exists_cons_of_ne_nil h
    have hfst : (find_optimal_transition_point analysis1 analysis2 bars).1
        = snapGo analysis1.outro.start bs b := by
      unfold find_optimal_transition_point snapToNearest
      rw [hb]
    obtain ⟨pre, suf, hdec, hpre, hmin⟩ := snapGo_first analysis1.outro.start bs b
    rw [hfst, hb]
    refine ⟨?_, fun x hx => hmin x hx, pre, suf, hdec, hpre⟩
    rw [hdec]
    exact List.mem_append_right pre (List.mem_cons_self _ _)

theorem c5_transition_point_policy_witness :
    (find_optimal_transition_point anTie anLongIntro 16).1 ∈ anTie.beats
    ∧ (find_optimal_transition_point anTie anLongIntro 16).2 = 6 := by
  have h := c5_transition_point_policy anTie anLongIntro 16
  constructor
  · exact (h.2.2 (by simp [anTie])).1
  · rw [h.1]
    norm_num [anLongIntro]

/-- C6: whenever the two BPM values differ by less than 0.5 — in particular
whenever they are equal — `match_tempo` returns the input buffer itself,
unchanged, for every choice of the external stretch primitive. -/
theorem c6_match_tempo_identity {α : Type} [LinearOrderedField α]
    (stretch : List α → α → List α) (audio : Buf α) (original_bpm target_bpm : α)
    (h : |original_bpm - target_bpm| < 1 / 2) :
    match_tempo stretch audio original_bpm target_bpm = .ok audio := by
  unfold match_tempo
  rw [if_pos h]

theorem c6_match_tempo_identity_witness :
    match_tempo idStretch wbufA 120 120 = .ok wbufA :=
  c6_match_tempo_identity idStretch wbufA 120 120 (by norm_num)

theorem length_scaleBuf (c : ℝ) (b : Buf ℝ) : (scaleBuf c b).length = b.length := by
  simp [scaleBuf]

theorem sumSq_scale (c : ℝ) (b : Buf ℝ) : sumSq (scaleBuf c b) = c ^ 2 * sumSq b := by
  induction b with
  | nil => simp [sumSq, scaleBuf]
  | cons fr t ih =>
    simp only [sumSq, scaleBuf, List.map_cons, List.sum_cons] at ih ⊢
    rw [ih]
    ring

theorem rmsOf_scale (c : ℝ) (b : Buf ℝ) : rmsOf (scaleBuf c b) = |c| * rmsOf b := by
  unfold rmsOf
  rw [length_scaleBuf, sumSq_scale]
  rw [show c ^ 2 * sumSq b / (2 * (b.length : ℝ)) = c ^ 2 * (sumSq b / (2 * b.length)) by ring]
  rw [Real.sqrt_mul (sq_nonneg c), Real.sqrt_sq_eq_abs]

theorem maxAbs_scale (c : ℝ) (b : Buf ℝ) : maxAbs (scaleBuf c b) = |c| * maxAbs b := by
  unfold maxAbs scaleBuf
  induction b with
  | nil => simp
  | cons fr t ih =>
    simp only [List.map_cons, List.foldr_cons] at ih ⊢
    rw [ih, mul_max_of_nonneg _ _ (abs_nonneg c), mul_max_of_nonneg _ _ (abs_nonneg c),
      abs_mul, abs_mul, mul_comm |fr.1| |c|, mul_comm |fr.2| |c|]

theorem normGain_pos (b : Buf ℝ) (t : ℝ) : 0 < normGain b t :=
  Real.rpow_pos_of_pos (by norm_num) _

theorem rms_scale_gain (b : Buf ℝ) (t : ℝ) (hb : 0 < rmsOf b) :
    rmsOf (scaleBuf (normGain b t) b) = (10 : ℝ) ^ (t / 20) := by
  rw [rmsOf_scale, abs_of_pos (normGain_pos b t)]
  unfold normGain
  rw [show (t - 20 * Real.logb 10 (rmsOf b)) / 20 = t / 20 - Real.logb 10 (rmsOf b) by ring]
  rw [Real.rpow_sub (by norm_num : (0 : ℝ) < 10),
    Real.rpow_logb (by norm_num) (by norm_num) hb]
  field_simp

theorem rescale_as_scale (m : ℝ) (b : Buf ℝ) :
    (b.map fun fr => (fr.1 / m * (99 / 100), fr.2 / m * (99 / 100)))
      = scaleBuf ((99 / 100) / m) b := by
  unfold scaleBuf
  refine List.map_congr_left fun fr _ => ?_
  simp only [Prod.mk.injEq]
  constructor <;> ring

/-- C7: `normalize_audio` returns the input unchanged when the buffer RMS is
zero; otherwise the applied linear gain moves the RMS exactly to
`target_db` (linear value `10 ^ (target_db / 20)`), and when the resulting
peak exceeds 1.0 the whole buffer is rescaled so the peak lands exactly at
0.99, while a peak of at most 1.0 is left as the gained buffer. -/
theorem c7_normalize_audio (audio : Buf ℝ) (target_db : ℝ) :
    (rmsOf audio = 0 → normalize_audio audio target_db = audio)
    ∧ (0 < rmsOf audio →
        rmsOf (scaleBuf (normGain audio target_db) audio) = (10 : ℝ) ^ (target_db / 20)
        ∧ (1 < maxAbs (scaleBuf (normGain audio target_db) audio) →
            normalize_audio audio target_db
              = scaleBuf ((99 / 100) / maxAbs (scaleBuf (normGain audio target_db) audio))
                  (scaleBuf (normGain audio target_db) audio)
            ∧ maxAbs (normalize_audio audio target_db) = 99 / 100)
        ∧ (maxAbs (scaleBuf (normGain audio target_db) audio) ≤ 1 →
            normalize_audio audio target_db
              = scaleBuf (normGain audio target_db) audio)) := by
  constructor
  · intro h
    unfold normalize_audio
    rw [if_neg (by rw [h]; exact lt_irrefl 0)]
  · intro h
    refine ⟨rms_scale_gain audio target_db h, ?_, ?_⟩
    · intro hpk
      have hm : 0 < maxAbs (scaleBuf (normGain audio target_db) audio) :=
        lt_trans one_pos hpk
      have hres : normalize_audio audio target_db
          = scaleBuf ((99 / 100) / maxAbs (scaleBuf (normGain audio target_db) audio))
              (scaleBuf (normGain audio target_db) audio) := by
        unfold normalize_audio
        simp only []
        rw [if_pos h, if_pos hpk, rescale_as_scale]
      refine ⟨hres, ?_⟩
      rw [hres, maxAbs_scale, abs_of_pos (div_pos (by norm_num) hm),
        div_mul_cancel₀ _ (ne_of_gt hm)]
    · intro hle
      unfold normalize_audio
      simp only []
      rw [if_pos h, if_neg (not_lt.2 hle)]

theorem c7_normalize_audio_witness :
    0 < rmsOf wNormBuf
    ∧ rmsOf (scaleBuf (normGain wNormBuf 0) wNormBuf) = (10 : ℝ) ^ ((0 : ℝ) / 20)
    ∧ maxAbs (normalize_audio wNormBuf 0) = 99 / 100 := by
  have hsum : sumSq wNormBuf = 25 := by
    unfold sumSq wNormBuf
    norm_num
  have hrms : rmsOf wNormBuf = 5 / 2 := by
    unfold rmsOf
    rw [hsum, show ((wNormBuf.length : ℝ)) = 2 by norm_num [wNormBuf],
      show (25 : ℝ) / (2 * 2) = (5 / 2) ^ 2 by norm_num]
    exact Real.sqrt_sq (by norm_num)
  have hpos : 0 < rmsOf wNormBuf := by
    rw [hrms]
    norm_num
  have hgain : normGain wNormBuf 0 = 2 / 5 := by
    unfold normGain
    rw [hrms, show ((0 : ℝ) - 20 * Real.logb 10 (5 / 2)) / 20 = -Real.logb 10 (5 / 2) by ring,
      Real.rpow_neg (by norm_num), Real.rpow_logb (by norm_num) (by norm_num) (by norm_num)]
    norm_num
  have hmaxw : maxAbs wNormBuf = 4 := by
    unfold maxAbs wNormBuf
    norm_num [max_def]
  have hscaled : maxAbs (scaleBuf (normGain wNormBuf 0) wNormBuf) = 8 / 5 := by
    rw [maxAbs_scale, hgain, hmaxw, abs_of_pos (by norm_num)]
    norm_num
  have h := c7_normalize_audio wNormBuf 0
  exact ⟨hpos, (h.2 hpos).1, ((h.2 hpos).2.1 (by rw [hscaled]; norm_num)).2⟩

/-- C8: a single-track playlist is a pure passthrough — the written buffer
is the decoded input buffer itself, with no normalization or gain change
(only the out-of-model container re-encode). -/
theorem c8_single_track_passthrough (stretch : List ℝ → ℝ → List ℝ)
    (audio : Buf ℝ) (analysis : TrackAnalysis ℝ)
    (sync_beats do_match_tempo harmonic_mix : Bool) (transition_bars : ℕ)
    (transition_style : Style) (auto_detect : Bool) :
    mix_playlist stretch [(audio, analysis)] sync_beats do_match_tempo harmonic_mix
      transition_bars transition_style auto_detect = .ok audio := rfl

set_option maxRecDepth 100000

/-- C9: over the 24 valid Camelot codes the boolean verdict of
`are_keys_compatible` coincides pointwise with the spec relation
`specKeysCompatible` (equal codes, or same number with different letters, or
same letter with numbers differing by exactly 1 modulo 12); any call with an
"Unknown" argument returns `False`; and the four concrete cases the spec
lists hold. -/
theorem c9_camelot_compatibility :
    (∀ c1 ∈ camelotCodes, ∀ c2 ∈ camelotCodes,
        compatBool c1 c2 = some (specKeysCompatible c1 c2))
    ∧ (∀ c2, compatBool "Unknown" c2 = some false)
    ∧ (∀ c1, compatBool c1 "Unknown" = some false)
    ∧ compatBool "8B" "8A" = some true
    ∧ compatBool "8B" "9B" = some true
    ∧ compatBool "8B" "3A" = some false
    ∧ compatBool "Unknown" "8A" = some false := by
  refine ⟨by decide, ?_, ?_, by decide, by decide, by decide, by decide⟩
  · intro c2
    unfold compatBool are_keys_compatible
    rw [if_pos (Or.inl rfl)]
    rfl
  · intro c1
    unfold compatBool are_keys_compatible
    rw [if_pos (Or.inr rfl)]
    rfl

theorem c9_camelot_compatibility_witness :
    compatBool "8B" "9B" = some (specKeysCompatible "8B" "9B") :=
  c9_camelot_compatibility.1 "8B" (by decide) "9B" (by decide)

/-- C10: on "Unknown" together with the 24 valid Camelot codes, the boolean
component of `are_keys_compatible` is a symmetric relation. -/
theorem c10_compat_symmetric :
    ∀ a ∈ "Unknown" :: camelotCodes, ∀ b ∈ "Unknown" :: camelotCodes,
      compatBool a b = compatBool b a := by decide

theorem c10_compat_symmetric_witness :
    compatBool "8B" "3A" = compatBool "3A" "8B" :=
  c10_compat_symmetric "8B" (by decide) "3A" (by decide)

theorem normalize_audio_length (b : Buf ℝ) (t : ℝ) :
    (normalize_audio b t).length = b.length := by
  unfold normalize_audio
  simp only []
  split_ifs <;> simp [scaleBuf]

theorem extendLoop_count_le {α : Type} [LinearOrderedField α] [FloorRing α]
    (audio : Buf α) (d mo mi : α) (cf : ℕ) (tgt : α) :
    ∀ (n : ℕ) (full r : Buf α) (c : ℕ),
      extendLoop audio d mo mi cf tgt n full = .ok (r, c) → c ≤ n := by
  intro n
  induction n with
  | zero =>
    intro full r c h
    simp only [extendLoop] at h
    injection h with h
    injection h with h1 h2
    omega
  | succ k ih =>
    intro full r c h
    simp only [extendLoop] at h
    obtain ⟨nxt, hnxt, h⟩ := exceptBind_ok h
    split at h
    · injection h with h
      injection h with h1 h2
      omega
    · obtain ⟨rr, hrr, h⟩ := exceptBind_ok h
      injection h with h
      injection h with h1 h2
      have := ih nxt rr.1 rr.2 hrr
      omega

theorem extendLoop_exit {α : Type} [LinearOrderedField α] [FloorRing α]
    (audio : Buf α) (d mo mi : α) (cf : ℕ) (tgt : α) :
    ∀ (n : ℕ) (full r : Buf α) (c : ℕ),
      extendLoop audio d mo mi cf tgt n full = .ok (r, c) →
        tgt ≤ (r.length : α) / (SR : α) ∨ c = n := by
  intro n
  induction n with
  | zero =>
    intro full r c h
    simp only [extendLoop] at h
    injection h with h
    injection h with h1 h2
    right
    omega
  | succ k ih =>
    intro full r c h
    simp only [extendLoop] at h
    obtain ⟨nxt, hnxt, h⟩ := exceptBind_ok h
    split at h
    case isTrue ht =>
      injection h with h
      injection h with h1 h2
      subst h1
      exact Or.inl ht
    case isFalse ht =>
      obtain ⟨rr, hrr, h⟩ := exceptBind_ok h
      injection h with h
      injection h with h1 h2
      subst h1
      rcases ih nxt rr.1 rr.2 hrr with hl | hr
      · exact Or.inl hl
      · right
        omega

theorem extendLoop_break {α : Type} [LinearOrderedField α] [FloorRing α]
    (audio : Buf α) (d mo mi : α) (cf : ℕ) (tgt : α) (k : ℕ) (full nxt : Buf α)
    (hs : spliceOnce audio d mo mi cf full = .ok nxt)
    (ht : tgt ≤ (nxt.length : α) / (SR : α)) :
    extendLoop audio d mo mi cf tgt (k + 1) full = .ok (nxt, 1) := by
  simp only [extendLoop]
  rw [hs, exceptBind_ok_eval, if_pos ht]

theorem extendLoop_last_splice {α : Type} [LinearOrderedField α] [FloorRing α]
    (audio : Buf α) (d mo mi : α) (cf : ℕ) (tgt : α) :
    ∀ (n : ℕ) (full r : Buf α) (c : ℕ),
      extendLoop audio d mo mi cf tgt n full = .ok (r, c) →
        (c = 0 ∧ r = full)
        ∨ ∃ prev, spliceOnce audio d mo mi cf prev = .ok r
            ∧ (prev = full ∨ ¬ tgt ≤ (prev.length : α) / (SR : α)) := by
  intro n
  induction n with
  | zero =>
    intro full r c h
    simp only [extendLoop] at h
    injection h with h
    injection h with h1 h2
    exact Or.inl ⟨h2.symm, h1.symm⟩
  | succ k ih =>
    intro full r c h
    simp only [extendLoop] at h
    obtain ⟨nxt, hnxt, h⟩ := exceptBind_ok h
    split at h
    case isTrue ht =>
      injection h with h
      injection h with h1 h2
      subst h1
      exact Or.inr ⟨full, hnxt, Or.inl rfl⟩
    case isFalse ht =>
      obtain ⟨rr, hrr, h⟩ := exceptBind_ok h
      injection h with h
      injection h with h1 h2
      subst h1
      rcases ih nxt rr.1 rr.2 hrr with ⟨hc0, hrfull⟩ | ⟨prev, hsp, hpr⟩
      · rw [hrfull]
        exact Or.inr ⟨full, hnxt, Or.inl rfl⟩
      · refine Or.inr ⟨prev, hsp, Or.inr ?_⟩
        rcases hpr with rfl | hbelow
        · exact ht
        · exact hbelow

theorem zipWith_scale_zeros (n : ℕ) (l : List ℝ) :
    List.zipWith scaleFrame (List.replicate n (0 : ℝ × ℝ)) l
      = List.replicate (min n l.length) (0 : ℝ × ℝ) := by
  induction n generalizing l with
  | zero => simp
  | succ k ih =>
    cases l with
    | nil => simp
    | cons c t =>
      simp only [List.replicate_succ, List.zipWith_cons_cons, List.length_cons,
        Nat.succ_min_succ, scaleFrame, Prod.fst_zero, Prod.snd_zero, zero_mul,
        Prod.mk_zero_zero]
      rw [ih]

theorem zipWith_add_zeros (n m : ℕ) :
    List.zipWith addFrame (List.replicate n (0 : ℝ × ℝ))
        (List.replicate m (0 : ℝ × ℝ))
      = List.replicate (min n m) (0 : ℝ × ℝ) := by
  rw [List.zipWith_replicate]
  simp [addFrame]

theorem exceptMap_ok {X Y : Type} (f : X → Y) (a : X) :
    (f <$> (Except.ok a : Except String X) : Except String Y) = .ok (f a) := rfl

theorem linspace_nat {α : Type} [LinearOrderedField α] (a b : α) (k : ℕ) :
    ∃ l, linspace a b (k : ℤ) = .ok l ∧ l.length = k := by
  refine ⟨_, linspace_of_nonneg a b (by positivity), ?_⟩
  simp

theorem mulSameLen_zeros {n : ℕ} {curve : List ℝ} (h : curve.length = n) :
    mulSameLen (List.replicate n (0 : ℝ × ℝ)) curve
      = .ok (List.replicate n (0 : ℝ × ℝ)) := by
  unfold mulSameLen
  rw [if_pos (by simp [h])]
  rw [zipWith_scale_zeros]
  simp [h]

theorem addSameLen_zeros (n : ℕ) :
    addSameLen (List.replicate n (0 : ℝ × ℝ)) (List.replicate n (0 : ℝ × ℝ))
      = .ok (List.replicate n (0 : ℝ × ℝ)) := by
  unfold addSameLen
  rw [if_pos (by simp)]
  rw [zipWith_add_zeros]
  simp

theorem splice_zeros8 :
    spliceOnce zeros8 ((8 : ℝ) / 44100) ((5 : ℝ) / 44100) 0 2 zeros8
      = .ok (List.replicate 13 ((0 : ℝ), (0 : ℝ))) := by
  have hts : toSamples ((8 : ℝ) / 44100 - (5 : ℝ) / 44100) = 3 := by
    rw [show (8 : ℝ) / 44100 - (5 : ℝ) / 44100 = 3 / 44100 by norm_num]
    unfold toSamples pyInt SR
    norm_num
  have hts0 : toSamples (0 : ℝ) = 0 := by
    unfold toSamples pyInt
    norm_num
  obtain ⟨fo, hfo, hfol⟩ := linspace_nat (1 : ℝ) 0 2
  obtain ⟨fi, hfi, hfil⟩ := linspace_nat (0 : ℝ) 1 2
  unfold spliceOnce
  simp only []
  rw [hts, hts0, hfo, exceptBind_ok_eval, hfi, exceptBind_ok_eval]
  norm_num [zeros8, pySliceTo, pyNegTail, pyNegInit, List.take_replicate,
    List.drop_replicate, Int.toNat_ofNat]
  rw [show Int.toNat 7 = 7 from rfl]
  norm_num
  rw [mulSameLen_zeros hfol, exceptBind_ok_eval, mulSameLen_zeros hfil,
    exceptBind_ok_eval, addSameLen_zeros 2, exceptMap_ok]
  rw [← List.replicate_add, ← List.replicate_add]

/-- C2 (amended): `extend_track` is a passthrough — `required_loops ≤ 1` and
the decoded buffer is written back unchanged — whenever the target duration
is at most `mixin_point + loop_length` (one source pass).  The premise
`target_duration ≤ original_duration` of the original claim is not enough:
the beat-snapped mixout point can make `loop_length` much shorter than the
track, so `required_loops` can exceed 1 below the original duration (see the
counterexample). -/
theorem c2_extend_passthrough (audio : Buf ℝ) (analysis : TrackAnalysis ℝ)
    (target_duration : ℝ) (transition_bars : ℕ)
    (hL : 0 < (transitionParams analysis transition_bars).1)
    (ht : target_duration ≤ (transitionParams analysis transition_bars).2.2
        + (transitionParams analysis transition_bars).1) :
    requiredLoops analysis target_duration transition_bars ≤ 1
    ∧ extend_track audio analysis target_duration transition_bars = .ok audio := by
  have hreq : requiredLoops analysis target_duration transition_bars ≤ 1 := by
    unfold requiredLoops
    simp only []
    rw [show (1 : ℤ) = ((1 : ℤ) : ℤ) from rfl, Int.ceil_le]
    push_cast
    rw [div_le_one hL]
    linarith
  refine ⟨hreq, ?_⟩
  unfold extend_track
  simp only []
  rw [if_pos hreq]

theorem fopt_anSparse :
    find_optimal_transition_point anSparse anSparse 1 = (5 / 44100, 0) := by
  unfold find_optimal_transition_point snapToNearest
  norm_num [anSparse, snapGo]

theorem tp_anSparse : transitionParams anSparse 1 = (5 / 44100, 5 / 44100, 0) := by
  unfold transitionParams
  rw [fopt_anSparse]
  norm_num

theorem req_anSparse : requiredLoops anSparse (7 / 44100) 1 = 2 := by
  unfold requiredLoops
  rw [tp_anSparse]
  simp only []
  rw [show ((7 : ℝ) / 44100 - 0) / ((5 : ℝ) / 44100) = 7 / 5 by norm_num]
  rw [Int.ceil_eq_iff]
  norm_num

theorem cf_anSparse : (toSamples (60 / anSparse.bpm * 4 * ((1 : ℕ) : ℝ))).toNat = 2 := by
  rw [show 60 / anSparse.bpm * 4 * ((1 : ℕ) : ℝ) = 2 / 44100 by norm_num [anSparse]]
  rw [show toSamples ((2 : ℝ) / 44100) = 2 by unfold toSamples pyInt SR; norm_num]
  rfl

/-- C2 counterexample: for the 8-sample track with analysis `anSparse`, the
target `7/44100 s` is below the original duration `8/44100 s`, yet
`required_loops = 2 > 1` and `extend_track` returns a 13-sample buffer, not
the 8-sample original. -/
theorem c2_extend_passthrough_counterexample :
    (7 / 44100 : ℝ) ≤ anSparse.duration
    ∧ requiredLoops anSparse (7 / 44100) 1 = 2
    ∧ (extend_track zeros8 anSparse (7 / 44100) 1).map List.length = .ok 13
    ∧ zeros8.length = 8 := by
  refine ⟨by norm_num [anSparse], req_anSparse, ?_, by simp [zeros8]⟩
  have hloop : extendLoop zeros8 anSparse.duration (5 / 44100) 0 2 (7 / 44100) 1 zeros8
      = .ok (List.replicate 13 (0 : ℝ × ℝ), 1) := by
    apply extendLoop_break
    · exact splice_zeros8
    · norm_num [SR]
  unfold extend_track
  simp only []
  rw [if_neg (by rw [req_anSparse]; norm_num), tp_anSparse]
  simp only []
  rw [cf_anSparse,
    show (requiredLoops anSparse (7 / 44100) 1 - 1).toNat = 1 by rw [req_anSparse]; rfl,
    hloop, exceptBind_ok_eval]
  simp [Except.map, pure, Except.pure, normalize_audio_length]

theorem c2_extend_passthrough_witness :
    requiredLoops anSparse (3 / 44100) 1 ≤ 1
    ∧ extend_track zeros8 anSparse (3 / 44100) 1 = .ok zeros8 := by
  apply c2_extend_passthrough
  · rw [tp_anSparse]
    norm_num
  · rw [tp_anSparse]
    norm_num

theorem mulSameLen_eq_of_len {α : Type} [LinearOrderedField α] {src : Buf α}
    {curve : List α} (h : src.length = curve.length) :
    mulSameLen src curve = .ok (List.zipWith scaleFrame src curve) := by
  unfold mulSameLen
  rw [if_pos h]

theorem addSameLen_eq_of_len {α : Type} [LinearOrderedField α] {xs ys : Buf α}
    (h : xs.length = ys.length) :
    addSameLen xs ys = .ok (List.zipWith addFrame xs ys) := by
  unfold addSameLen
  rw [if_pos h]

theorem extendLoop_zero {α : Type} [LinearOrderedField α] [FloorRing α]
    (audio : Buf α) (d mo mi : α) (cf : ℕ) (tgt : α) (full : Buf α) :
    extendLoop audio d mo mi cf tgt 0 full = .ok (full, 0) := rfl

theorem extendLoop_continue {α : Type} [LinearOrderedField α] [FloorRing α]
    (audio : Buf α) (d mo mi : α) (cf : ℕ) (tgt : α) (k : ℕ) (full nxt : Buf α)
    (hs : spliceOnce audio d mo mi cf full = .ok nxt)
    (ht : ¬ tgt ≤ (nxt.length : α) / (SR : α)) (r : Buf α) (c : ℕ)
    (hrec : extendLoop audio d mo mi cf tgt k nxt = .ok (r, c)) :
    extendLoop audio d mo mi cf tgt (k + 1) full = .ok (r, c + 1) := by
  simp only [extendLoop]
  rw [hs, exceptBind_ok_eval, if_neg ht, hrec, exceptBind_ok_eval]

theorem spliceOnce_aligned {α : Type} [LinearOrderedField α] [FloorRing α]
    (audio : Buf α) (d mo mi : α) (cf : ℕ) (full : Buf α)
    (hcf : 0 < cf)
    (htfe0 : 0 ≤ toSamples (d - mo))
    (hcfle : cf ≤ (toSamples (d - mo)).toNat)
    (hfull : (toSamples (d - mo)).toNat ≤ full.length)
    (hmia : (toSamples mi).toNat + cf ≤ audio.length) :
    ∃ mid, spliceOnce audio d mo mi cf full
        = .ok (full.take (full.length - (toSamples (d - mo)).toNat) ++ mid
            ++ audio.drop ((toSamples mi).toNat + cf))
      ∧ mid.length = cf := by
  obtain ⟨fo, hfo, hfol⟩ := linspace_nat (1 : α) 0 cf
  obtain ⟨fi, hfi, hfil⟩ := linspace_nat (0 : α) 1 cf
  set tfe := (toSamples (d - mo)).toNat with htfedef
  have htfe : toSamples (d - mo) = (tfe : ℤ) := by omega
  unfold spliceOnce
  simp only []
  rw [htfe, hfo, exceptBind_ok_eval, hfi, exceptBind_ok_eval]
  have hkeep : pySliceTo full ((full.length : ℤ) - (tfe : ℤ) + (cf : ℤ))
      = full.take (full.length - tfe + cf) := by
    unfold pySliceTo
    rw [if_neg (by omega)]
    congr 1
    omega
  rw [hkeep]
  have hkeeplen : (full.take (full.length - tfe + cf)).length
      = full.length - tfe + cf := by
    rw [List.length_take]
    omega
  have hoprev : pyNegTail (full.take (full.length - tfe + cf)) cf
      = (full.take (full.length - tfe + cf)).drop (full.length - tfe) := by
    unfold pyNegTail
    rw [if_neg (by omega), hkeeplen]
    congr 1
    omega
  rw [hoprev]
  have hoprevlen : ((full.take (full.length - tfe + cf)).drop (full.length - tfe)).length
      = cf := by
    rw [List.length_drop, hkeeplen]
    omega
  have honextlen : ((audio.drop (toSamples mi).toNat).take cf).length = cf := by
    rw [List.length_take, List.length_drop]
    omega
  rw [mulSameLen_eq_of_len (by rw [hoprevlen, hfol]), exceptBind_ok_eval,
    mulSameLen_eq_of_len (by rw [honextlen, hfil]), exceptBind_ok_eval,
    addSameLen_eq_of_len (by
      simp only [List.length_zipWith, hoprevlen, honextlen, hfol, hfil])]
  rw [exceptBind_ok_eval]
  have hbody : pyNegInit (full.take (full.length - tfe + cf)) cf
      = full.take (full.length - tfe) := by
    unfold pyNegInit
    rw [if_neg (by omega), hkeeplen,
      show full.length - tfe + cf - cf = full.length - tfe from by omega,
      List.take_take]
    congr 1
    omega
  have hnext : (audio.drop (toSamples mi).toNat).drop cf
      = audio.drop ((toSamples mi).toNat + cf) := by
    rw [List.drop_drop, Nat.add_comm]
  rw [hbody, hnext]
  exact ⟨_, rfl, by
    simp only [List.length_zipWith, hoprevlen, honextlen, hfol, hfil]
    omega⟩

/-- C3 (amended): in extend mode the accumulation loop (i) executes at most
its fuel `required_loops - 1` iterations; (ii) under aligned-window
hypotheses (crossfade window not exceeding the distance
`original_duration - mixout_point` from the end, and a fresh copy long
enough), each iteration splices at sample index
`current_length - toSamples(original_duration - mixout_point)` — a constant
distance from the current end — keeping the prefix before it untouched and
appending the rest of a fresh copy from `mixin_point`, with a blended window
of exactly `crossfade_samples` frames; (iii) the loop breaks as soon as the
accumulated length in seconds reaches the target; (iv) on exit the length
has reached the target OR all `required_loops - 1` iterations were consumed
(the original claim's unconditional "length ≥ target" fails — see the
counterexample); (v) the final buffer is the splice of a buffer that was the
initial one or still below target, so any overshoot is bounded by the
length added by the final splice, not by one crossfade window. -/
theorem c3_extend_loop (audio : Buf ℝ) (analysis : TrackAnalysis ℝ)
    (target_duration : ℝ) (transition_bars : ℕ) (mo mi : ℝ) (cf : ℕ)
    (hmo : mo = (transitionParams analysis transition_bars).2.1)
    (hmi : mi = (transitionParams analysis transition_bars).2.2)
    (hcfdef : cf = (toSamples (60 / analysis.bpm * 4 * (transition_bars : ℝ))).toNat)
    (hcf : 0 < cf)
    (htfe0 : 0 ≤ toSamples (analysis.duration - mo))
    (hcfle : cf ≤ (toSamples (analysis.duration - mo)).toNat)
    (hmia : (toSamples mi).toNat + cf ≤ audio.length) :
    (∀ (n : ℕ) (full r : Buf ℝ) (c : ℕ),
        extendLoop audio analysis.duration mo mi cf target_duration n full
          = .ok (r, c) → c ≤ n)
    ∧ (∀ full : Buf ℝ, (toSamples (analysis.duration - mo)).toNat ≤ full.length →
        ∃ mid, spliceOnce audio analysis.duration mo mi cf full
            = .ok (full.take (full.length - (toSamples (analysis.duration - mo)).toNat)
                ++ mid ++ audio.drop ((toSamples mi).toNat + cf))
          ∧ mid.length = cf)
    ∧ (∀ (k : ℕ) (full nxt : Buf ℝ),
        spliceOnce audio analysis.duration mo mi cf full = .ok nxt →
        target_duration ≤ (nxt.length : ℝ) / (SR : ℝ) →
        extendLoop audio analysis.duration mo mi cf target_duration (k + 1) full
          = .ok (nxt, 1))
    ∧ (∀ (n : ℕ) (full r : Buf ℝ) (c : ℕ),
        extendLoop audio analysis.duration mo mi cf target_duration n full
          = .ok (r, c) →
        target_duration ≤ (r.length : ℝ) / (SR : ℝ) ∨ c = n)
    ∧ (∀ (n : ℕ) (full r : Buf ℝ) (c : ℕ),
        extendLoop audio analysis.duration mo mi cf target_duration n full
          = .ok (r, c) →
        (c = 0 ∧ r = full)
        ∨ ∃ prev, spliceOnce audio analysis.duration mo mi cf prev = .ok r
            ∧ (prev = full ∨ ¬ target_duration ≤ (prev.length : ℝ) / (SR : ℝ))) := by
  refine ⟨extendLoop_count_le _ _ _ _ _ _, ?_, ?_, extendLoop_exit _ _ _ _ _ _,
    extendLoop_last_splice _ _ _ _ _ _⟩
  · intro full hfull
    exact spliceOnce_aligned audio analysis.duration mo mi cf full hcf htfe0 hcfle
      hfull hmia
  · intro k full nxt hs ht
    exact extendLoop_break _ _ _ _ _ _ k full nxt hs ht

theorem toSamples_zeroR : toSamples (0 : ℝ) = 0 := by
  unfold toSamples pyInt
  norm_num

theorem ts_anSparse : toSamples (anSparse.duration - 5 / 44100) = 3 := by
  rw [show anSparse.duration - (5 : ℝ) / 44100 = 3 / 44100 by norm_num [anSparse]]
  unfold toSamples pyInt SR
  norm_num

theorem c3_extend_loop_witness :
    extendLoop zeros8 anSparse.duration (5 / 44100) 0 2 (7 / 44100) 1 zeros8
      = .ok (List.replicate 13 ((0 : ℝ), (0 : ℝ)), 1) := by
  have h := c3_extend_loop zeros8 anSparse (7 / 44100) 1 (5 / 44100) 0 2
    (by rw [tp_anSparse]) (by rw [tp_anSparse]) (by rw [cf_anSparse])
    (by norm_num) (by rw [ts_anSparse]; norm_num) (by rw [ts_anSparse]; decide)
    (by rw [toSamples_zeroR]; simp [zeros8])
  exact h.2.2.1 0 zeros8 _ splice_zeros8 (by norm_num [SR])

theorem fopt_anWide :
    find_optimal_transition_point anWide anWide 1 = (3 / 44100, 0) := by
  unfold find_optimal_transition_point snapToNearest
  norm_num [anWide, snapGo]

theorem tp_anWide : transitionParams anWide 1 = (3 / 44100, 3 / 44100, 0) := by
  unfold transitionParams
  rw [fopt_anWide]
  norm_num

theorem req_anWide : requiredLoops anWide (8 / 44100) 1 = 3 := by
  unfold requiredLoops
  rw [tp_anWide]
  simp only []
  rw [show ((8 : ℝ) / 44100 - 0) / ((3 : ℝ) / 44100) = 8 / 3 by norm_num]
  rw [Int.ceil_eq_iff]
  norm_num

theorem cf_anWide : (toSamples (60 / anWide.bpm * 4 * ((1 : ℕ) : ℝ))).toNat = 4 := by
  rw [show 60 / anWide.bpm * 4 * ((1 : ℕ) : ℝ) = 4 / 44100 by norm_num [anWide]]
  rw [show toSamples ((4 : ℝ) / 44100) = 4 by unfold toSamples pyInt SR; norm_num]
  rfl

theorem splice_zeros4 :
    spliceOnce zeros4 ((4 : ℝ) / 44100) ((3 : ℝ) / 44100) 0 4
      (List.replicate 4 (0 : ℝ × ℝ)) = .ok (List.replicate 4 (0 : ℝ × ℝ)) := by
  have hts : toSamples ((4 : ℝ) / 44100 - (3 : ℝ) / 44100) = 1 := by
    rw [show (4 : ℝ) / 44100 - (3 : ℝ) / 44100 = 1 / 44100 by norm_num]
    unfold toSamples pyInt SR
    norm_num
  obtain ⟨fo, hfo, hfol⟩ := linspace_nat (1 : ℝ) 0 4
  obtain ⟨fi, hfi, hfil⟩ := linspace_nat (0 : ℝ) 1 4
  unfold spliceOnce
  simp only []
  rw [hts, toSamples_zeroR, hfo, exceptBind_ok_eval, hfi, exceptBind_ok_eval]
  norm_num [zeros4, pySliceTo, pyNegTail, pyNegInit, List.take_replicate,
    List.drop_replicate]
  rw [mulSameLen_zeros hfol, exceptBind_ok_eval, mulSameLen_zeros hfil,
    exceptBind_ok_eval, addSameLen_zeros 4]

theorem loop_zeros4 :
    extendLoop zeros4 anWide.duration (3 / 44100) 0 4 (8 / 44100) 2 zeros4
      = .ok (List.replicate 4 (0 : ℝ × ℝ), 2) := by
  have hcond : ¬ ((8 : ℝ) / 44100)
      ≤ ((List.replicate 4 (0 : ℝ × ℝ)).length : ℝ) / (SR : ℝ) := by
    norm_num [SR]
  exact extendLoop_continue _ _ _ _ _ _ 1 _ _ splice_zeros4 hcond _ _
    (extendLoop_continue _ _ _ _ _ _ 0 _ _ splice_zeros4 hcond _ _
      (extendLoop_zero _ _ _ _ _ _ _))

/-- C3 counterexample: for the 4-sample track with analysis `anWide` the
crossfade window (4 samples) swallows each appended copy, so every splice
adds zero length; with target `8/44100 s` the loop consumes all
`required_loops - 1 = 2` iterations and `extend_track` returns a 4-sample
buffer whose duration is strictly below the target — refuting "on exit the
accumulated length is ≥ target_duration". -/
theorem c3_extend_loop_counterexample :
    1 < requiredLoops anWide (8 / 44100) 1
    ∧ (extend_track zeros4 anWide (8 / 44100) 1).map List.length = .ok 4
    ∧ ((4 : ℝ)) / (SR : ℝ) < 8 / 44100 := by
  refine ⟨by rw [req_anWide]; norm_num, ?_, by norm_num [SR]⟩
  unfold extend_track
  simp only []
  rw [if_neg (by rw [req_anWide]; norm_num), tp_anWide]
  simp only []
  rw [cf_anWide,
    show (requiredLoops anWide (8 / 44100) 1 - 1).toNat = 2 by rw [req_anWide]; rfl,
    loop_zeros4, exceptBind_ok_eval]
  simp [Except.map, pure, Except.pure, normalize_audio_length]
